import Mathlib

/-!
Verification of the WedFind client orchestration logic: a shallow embedding
of the sequential batch-upload pipeline (useUpload), the face-search session
(useSearch) with its persisted exclusion set, and the job-status poller
(useJobStatus), together with theorems settling the spec claims.
-/

namespace WedFind

/-! ## Upload batch model (useUpload / uploadSingleImage)

The orchestrator in useUpload.upload runs over a list of files, one at a
time.  Each file's network transfer settles either with an UploadResponse
or with an error message (ApiError.message; an aborted transfer settles
with the message "Upload cancelled").  The cancelled flag (cancelledRef)
is checked before each file starts; its value at the check for file i is
modelled by the function cancelled : Nat -> Bool. -/

/-- Response body of POST /upload for one file (types.ts UploadResponse). -/
structure UploadResponse where
  job_id : String
  images_accepted : Nat
  images_rejected : Nat
  duplicates_skipped : Nat
  deriving DecidableEq, Repr

/-- How one file's transfer settles: resolution with a response, or
rejection with an error message. -/
inductive FileResult where
  | ok (resp : UploadResponse)
  | err (msg : String)
  deriving DecidableEq, Repr

/-- Mutable state accumulated by one run of useUpload.upload: the
aggregated result fields plus the two counters.  The extra field
started instruments the run with the number of uploadSingleImage
invocations made (the source performs exactly one such network call per
loop iteration that passes the cancellation check). -/
structure BatchState where
  job_ids : List String
  images_accepted : Nat
  images_rejected : Nat
  duplicates_skipped : Nat
  filesCompleted : Nat
  filesFailed : Nat
  started : Nat
  deriving DecidableEq, Repr

/-- State at the top of useUpload.upload: empty aggregate, zero counters. -/
def initBatch : BatchState :=
  { job_ids := [], images_accepted := 0, images_rejected := 0,
    duplicates_skipped := 0, filesCompleted := 0, filesFailed := 0,
    started := 0 }

/-- The for-loop of useUpload.upload.  i is the loop index, outcomes the
settlements of the remaining files' transfers, st the accumulated state.
Before each file the cancelled flag is checked (break when set).  On
success the job id is pushed and the counts added and filesCompleted is
incremented; on failure filesFailed is incremented and, exactly when the
message is "Upload cancelled", the loop breaks. -/
def runBatch (cancelled : Nat → Bool) : Nat → List FileResult → BatchState → BatchState
  | _, [], st => st
  | i, o :: rest, st =>
    if cancelled i then st
    else
      let st0 : BatchState := { st with started := st.started + 1 }
      match o with
      | .ok r =>
        runBatch cancelled (i + 1) rest
          { st0 with
            job_ids := st0.job_ids ++ [r.job_id],
            images_accepted := st0.images_accepted + r.images_accepted,
            images_rejected := st0.images_rejected + r.images_rejected,
            duplicates_skipped := st0.duplicates_skipped + r.duplicates_skipped,
            filesCompleted := st0.filesCompleted + 1 }
      | .err m =>
        let st1 : BatchState := { st0 with filesFailed := st0.filesFailed + 1 }
        if m = "Upload cancelled" then st1
        else runBatch cancelled (i + 1) rest st1

/-- One whole invocation of the upload loop from the initial state. -/
def uploadRun (cancelled : Nat → Bool) (outcomes : List FileResult) : BatchState :=
  runBatch cancelled 0 outcomes initBatch

/-- The aggregate result value built from the final loop state. -/
def aggregateOf (st : BatchState) : UploadResponse :=
  { job_id := "", images_accepted := st.images_accepted,
    images_rejected := st.images_rejected,
    duplicates_skipped := st.duplicates_skipped }

/-- Finalization after the loop: if filesCompleted > 0 the aggregate is
stored as the result, else if filesFailed > 0 an error naming the failure
count is stored; otherwise neither.  Returned as (result?, error?). -/
def finalizeBatch (st : BatchState) : Option (List String × UploadResponse) × Option String :=
  if st.filesCompleted > 0 then (some (st.job_ids, aggregateOf st), none)
  else if st.filesFailed > 0 then
    (none, some ("All " ++ toString st.filesFailed ++ " uploads failed"))
  else (none, none)

/-! ### Loop invariants -/

theorem runBatch_counts (cancelled : Nat → Bool) :
    ∀ (outcomes : List FileResult) (i : Nat) (st : BatchState),
      (∀ j, cancelled j = false) →
      (∀ o ∈ outcomes, o ≠ FileResult.err "Upload cancelled") →
      (runBatch cancelled i outcomes st).filesCompleted
        + (runBatch cancelled i outcomes st).filesFailed
        = st.filesCompleted + st.filesFailed + outcomes.length := by
  intro outcomes
  induction outcomes with
  | nil => intro i st _ _; simp [runBatch]
  | cons o rest ih =>
    intro i st hc hnc
    cases o with
    | ok r =>
      simp only [runBatch, hc i, if_false, Bool.false_eq_true]
      rw [ih (i + 1) _ hc (fun o ho => hnc o (List.mem_cons_of_mem _ ho))]
      simp
      omega
    | err m =>
      have hm : m ≠ "Upload cancelled" := by
        intro h
        exact hnc (.err m) (List.mem_cons_self _ _) (by rw [h])
      simp only [runBatch, hc i, if_false, Bool.false_eq_true, hm, if_neg hm]
      rw [ih (i + 1) _ hc (fun o ho => hnc o (List.mem_cons_of_mem _ ho))]
      simp
      omega

theorem runBatch_jobs (cancelled : Nat → Bool) :
    ∀ (outcomes : List FileResult) (i : Nat) (st : BatchState),
      st.job_ids.length = st.filesCompleted →
      (runBatch cancelled i outcomes st).job_ids.length
        = (runBatch cancelled i outcomes st).filesCompleted := by
  intro outcomes
  induction outcomes with
  | nil => intro i st h; simpa [runBatch] using h
  | cons o rest ih =>
    intro i st h
    by_cases hc : cancelled i
    · simpa [runBatch, hc] using h
    · cases o with
      | ok r =>
        simp only [runBatch, hc, Bool.false_eq_true, if_false]
        exact ih (i + 1) _ (by simp [h])
      | err m =>
        by_cases hm : m = "Upload cancelled"
        · simpa [runBatch, hc, hm] using h
        · simp only [runBatch, hc, Bool.false_eq_true, if_false, if_neg hm]
          exact ih (i + 1) _ (by simp [h])

/-- C1: for a non-empty batch that runs to completion with no
cancellation (the cancelled flag is never set and no transfer settles
with the "Upload cancelled" rejection), the final counters satisfy
filesCompleted + filesFailed = totalFiles, and the collected job-id list
has length filesCompleted (one id pushed per successful settlement). -/
theorem c1_batch_counts (outcomes : List FileResult)
    (hne : outcomes ≠ [])
    (hnc : ∀ o ∈ outcomes, o ≠ FileResult.err "Upload cancelled") :
    (uploadRun (fun _ => false) outcomes).filesCompleted
      + (uploadRun (fun _ => false) outcomes).filesFailed = outcomes.length
    ∧ (uploadRun (fun _ => false) outcomes).job_ids.length
      = (uploadRun (fun _ => false) outcomes).filesCompleted := by
  constructor
  · have := runBatch_counts (fun _ => false) outcomes 0 initBatch
      (fun _ => rfl) hnc
    simpa [uploadRun, initBatch] using this
  · exact runBatch_jobs (fun _ => false) outcomes 0 initBatch rfl

/-- Processing a list with no cancellation splits over append when the
cancelled flag is never set: the loop never breaks inside the first part. -/
theorem runBatch_append (cancelled : Nat → Bool) :
    ∀ (l1 l2 : List FileResult) (i : Nat) (st : BatchState),
      (∀ j, cancelled j = false) →
      (∀ o ∈ l1, o ≠ FileResult.err "Upload cancelled") →
      runBatch cancelled i (l1 ++ l2) st
        = runBatch cancelled (i + l1.length) l2 (runBatch cancelled i l1 st) := by
  intro l1
  induction l1 with
  | nil => intro l2 i st _ _; simp [runBatch]
  | cons o rest ih =>
    intro l2 i st hc hnc
    have harith : i + 1 + rest.length = i + (rest.length + 1) := by omega
    cases o with
    | ok r =>
      simp only [List.cons_append, runBatch, hc i, Bool.false_eq_true, if_false,
        List.append_eq]
      rw [ih l2 (i + 1) _ hc (fun o ho => hnc o (List.mem_cons_of_mem _ ho))]
      simp only [List.length_cons]
      rw [harith]
    | err m =>
      have hm : m ≠ "Upload cancelled" := by
        intro h
        exact hnc (.err m) (List.mem_cons_self _ _) (by rw [h])
      simp only [List.cons_append, runBatch, hc i, Bool.false_eq_true, if_false,
        if_neg hm, List.append_eq]
      rw [ih l2 (i + 1) _ hc (fun o ho => hnc o (List.mem_cons_of_mem _ ho))]
      simp only [List.length_cons]
      rw [harith]

/-- With the cancelled flag set from index k on, the loop behaves exactly
as an uncancelled loop over the first k files. -/
theorem runBatch_cancel_take :
    ∀ (outcomes : List FileResult) (i k : Nat) (st : BatchState), i ≤ k →
      runBatch (fun j => decide (k ≤ j)) i outcomes st
        = runBatch (fun _ => false) i (outcomes.take (k - i)) st := by
  intro outcomes
  induction outcomes with
  | nil => intro i k st _; simp [runBatch]
  | cons o rest ih =>
    intro i k st hik
    by_cases hk : k ≤ i
    · have hkeq : k = i := Nat.le_antisymm hk hik
      have h0 : k - i = 0 := by omega
      simp [runBatch, h0, hkeq]
    · have hlt : i < k := Nat.lt_of_not_le hk
      have htake : (o :: rest).take (k - i) = o :: rest.take (k - (i + 1)) := by
        have : k - i = (k - (i + 1)) + 1 := by omega
        rw [this, List.take_succ_cons]
      rw [htake]
      cases o with
      | ok r =>
        simp only [runBatch, decide_eq_true_eq, Bool.false_eq_true, if_false,
          if_neg hk]
        exact ih (i + 1) k _ hlt
      | err m =>
        by_cases hm : m = "Upload cancelled"
        · simp [runBatch, hm, if_neg hk]
        · simp only [runBatch, decide_eq_true_eq, Bool.false_eq_true, if_false,
            if_neg hk, if_neg hm]
          exact ih (i + 1) k _ hlt

/-- The loop starts at most one upload per remaining file. -/
theorem runBatch_started_le (cancelled : Nat → Bool) :
    ∀ (outcomes : List FileResult) (i : Nat) (st : BatchState),
      (runBatch cancelled i outcomes st).started ≤ st.started + outcomes.length := by
  intro outcomes
  induction outcomes with
  | nil => intro i st; simp [runBatch]
  | cons o rest ih =>
    intro i st
    by_cases hc : cancelled i
    · simp only [runBatch, hc, if_true, List.length_cons]
      omega
    · cases o with
      | ok r =>
        simp only [runBatch, hc, Bool.false_eq_true, if_false, List.length_cons]
        refine le_trans (ih (i + 1) _) ?_
        simp only []
        omega
      | err m =>
        by_cases hm : m = "Upload cancelled"
        · simp only [runBatch, hc, Bool.false_eq_true, if_false, List.length_cons]
          rw [if_pos hm]
          show st.started + 1 ≤ st.started + (rest.length + 1)
          omega
        · simp only [runBatch, hc, Bool.false_eq_true, if_false, if_neg hm,
            List.length_cons]
          refine le_trans (ih (i + 1) _) ?_
          simp only []
          omega

/-- Witness for C1 at a concrete two-file batch (one success, one
non-cancellation failure). -/
theorem c1_batch_counts_witness :
    (uploadRun (fun _ => false)
        [FileResult.ok ⟨"j1", 3, 1, 0⟩, FileResult.err "Network error"]).filesCompleted
      + (uploadRun (fun _ => false)
        [FileResult.ok ⟨"j1", 3, 1, 0⟩, FileResult.err "Network error"]).filesFailed = 2
    ∧ (uploadRun (fun _ => false)
        [FileResult.ok ⟨"j1", 3, 1, 0⟩, FileResult.err "Network error"]).job_ids.length
      = (uploadRun (fun _ => false)
        [FileResult.ok ⟨"j1", 3, 1, 0⟩, FileResult.err "Network error"]).filesCompleted :=
  c1_batch_counts [FileResult.ok ⟨"j1", 3, 1, 0⟩, FileResult.err "Network error"]
    (by decide) (by decide)

/-- C3: in a 3-file batch where file 2 rejects with a non-cancellation
error and files 1 and 3 resolve, the loop does not abort after file 2:
all three uploads are started, images_accepted sums files 1 and 3 only,
filesFailed = 1 and filesCompleted = 2. -/
theorem c3_partial_failure (r1 r3 : UploadResponse) (m : String)
    (hm : m ≠ "Upload cancelled") :
    (uploadRun (fun _ => false) [.ok r1, .err m, .ok r3]).started = 3
    ∧ (uploadRun (fun _ => false) [.ok r1, .err m, .ok r3]).images_accepted
      = r1.images_accepted + r3.images_accepted
    ∧ (uploadRun (fun _ => false) [.ok r1, .err m, .ok r3]).filesFailed = 1
    ∧ (uploadRun (fun _ => false) [.ok r1, .err m, .ok r3]).filesCompleted = 2 := by
  simp [uploadRun, runBatch, initBatch, if_neg hm]

/-- Witness for C3 at concrete responses and a concrete network error. -/
theorem c3_partial_failure_witness :
    (uploadRun (fun _ => false)
        [.ok ⟨"a", 2, 0, 0⟩, .err "Network error", .ok ⟨"b", 3, 1, 1⟩]).started = 3
    ∧ (uploadRun (fun _ => false)
        [.ok ⟨"a", 2, 0, 0⟩, .err "Network error", .ok ⟨"b", 3, 1, 1⟩]).images_accepted
      = (2 : Nat) + 3
    ∧ (uploadRun (fun _ => false)
        [.ok ⟨"a", 2, 0, 0⟩, .err "Network error", .ok ⟨"b", 3, 1, 1⟩]).filesFailed = 1
    ∧ (uploadRun (fun _ => false)
        [.ok ⟨"a", 2, 0, 0⟩, .err "Network error", .ok ⟨"b", 3, 1, 1⟩]).filesCompleted = 2 :=
  c3_partial_failure ⟨"a", 2, 0, 0⟩ ⟨"b", 3, 1, 1⟩ "Network error" (by decide)

/-- Counterexample to C4 as stated: a single-file batch whose transfer is
aborted mid-flight settles with "Upload cancelled"; the loop short-circuits
(no later upload starts) but filesFailed is incremented BEFORE the
cancellation check, so the cancelled transfer IS counted among failed files
and the finalization reports the error "All 1 uploads failed". -/
theorem c4_counterexample :
    (uploadRun (fun _ => false)
        [.err "Upload cancelled", .ok ⟨"j2", 1, 0, 0⟩]).started = 1
    ∧ (uploadRun (fun _ => false)
        [.err "Upload cancelled", .ok ⟨"j2", 1, 0, 0⟩]).filesFailed = 1
    ∧ finalizeBatch (uploadRun (fun _ => false)
        [.err "Upload cancelled", .ok ⟨"j2", 1, 0, 0⟩])
      = (none, some "All 1 uploads failed") := by
  refine ⟨rfl, rfl, ?_⟩
  rfl

/-- C4 amended: cancellation does short-circuit the loop — after a
transfer settles with "Upload cancelled" no further upload starts, and
once the cancelled flag is set (from file index k on) the loop behaves
exactly as an uncancelled loop over the first k files, so flag-skipped
files are started neither counted; but a transfer that itself settles
with "Upload cancelled" is counted in filesFailed (contrary to the
original claim), while leaving filesCompleted and the job-id list
untouched. -/
theorem c4_cancel_short_circuit :
    (∀ (pre rest : List FileResult),
      (∀ o ∈ pre, o ≠ FileResult.err "Upload cancelled") →
      (uploadRun (fun _ => false)
          (pre ++ FileResult.err "Upload cancelled" :: rest)).started
        = (uploadRun (fun _ => false) pre).started + 1
      ∧ (uploadRun (fun _ => false)
          (pre ++ FileResult.err "Upload cancelled" :: rest)).filesFailed
        = (uploadRun (fun _ => false) pre).filesFailed + 1
      ∧ (uploadRun (fun _ => false)
          (pre ++ FileResult.err "Upload cancelled" :: rest)).filesCompleted
        = (uploadRun (fun _ => false) pre).filesCompleted
      ∧ (uploadRun (fun _ => false)
          (pre ++ FileResult.err "Upload cancelled" :: rest)).job_ids
        = (uploadRun (fun _ => false) pre).job_ids)
    ∧ (∀ (outcomes : List FileResult) (k : Nat),
      uploadRun (fun i => decide (k ≤ i)) outcomes
        = uploadRun (fun _ => false) (outcomes.take k)
      ∧ (uploadRun (fun i => decide (k ≤ i)) outcomes).started ≤ k) := by
  constructor
  · intro pre rest hnc
    have h := runBatch_append (fun _ => false) pre
      (FileResult.err "Upload cancelled" :: rest) 0 initBatch (fun _ => rfl) hnc
    unfold uploadRun
    rw [h]
    exact ⟨rfl, rfl, rfl, rfl⟩
  · intro outcomes k
    have h := runBatch_cancel_take outcomes 0 k initBatch (Nat.zero_le k)
    constructor
    · unfold uploadRun
      rw [h]
      simp
    · unfold uploadRun
      rw [h]
      have h1 := runBatch_started_le (fun _ => false) (outcomes.take (k - 0)) 0 initBatch
      have h2 : (outcomes.take (k - 0)).length ≤ k - 0 := List.length_take_le _ _
      have h3 : initBatch.started = 0 := rfl
      omega

/-- Witness for C4 amended, at a concrete batch with one success before
the cancelled transfer, and a concrete flag cut-off. -/
theorem c4_cancel_short_circuit_witness :
    (uploadRun (fun _ => false)
        ([FileResult.ok ⟨"a", 1, 0, 0⟩] ++ FileResult.err "Upload cancelled"
          :: [FileResult.ok ⟨"b", 1, 0, 0⟩])).started
      = (uploadRun (fun _ => false) [FileResult.ok ⟨"a", 1, 0, 0⟩]).started + 1
    ∧ uploadRun (fun i => decide (1 ≤ i))
        [FileResult.ok ⟨"a", 1, 0, 0⟩, FileResult.ok ⟨"b", 1, 0, 0⟩]
      = uploadRun (fun _ => false)
        ([FileResult.ok ⟨"a", 1, 0, 0⟩, FileResult.ok ⟨"b", 1, 0, 0⟩].take 1) :=
  ⟨(c4_cancel_short_circuit.1 [FileResult.ok ⟨"a", 1, 0, 0⟩]
      [FileResult.ok ⟨"b", 1, 0, 0⟩] (by decide)).1,
    (c4_cancel_short_circuit.2
      [FileResult.ok ⟨"a", 1, 0, 0⟩, FileResult.ok ⟨"b", 1, 0, 0⟩] 1).1⟩

/-- Counterexample to C9 as stated: the empty upload batch (upload
called with an empty file list) has zero successes, yet finalization
surfaces no error at all — the code only reports "All N uploads failed"
when filesFailed > 0, and neither counter moves when the loop has no
files to run. -/
theorem c9_counterexample :
    (uploadRun (fun _ => false) []).filesCompleted = 0
    ∧ (uploadRun (fun _ => false) []).filesFailed = 0
    ∧ finalizeBatch (uploadRun (fun _ => false) []) = (none, none) := by
  refine ⟨rfl, rfl, ?_⟩
  rfl

/-- C9 amended: after any batch run, if zero files succeeded and at least
one failed, finalization surfaces the error naming the failure count and
no aggregate result; an aggregate result is produced exactly when at
least one file succeeded; and with zero successes and zero failures
neither a result nor an error is produced.  The zero/zero case is
reachable only with an empty file list: upload resets the cancelled flag
synchronously at entry and the first file's flag check precedes any
suspension point, so a non-empty batch always settles its first file. -/
theorem c9_zero_success (cancelled : Nat → Bool) (outcomes : List FileResult) :
    ((uploadRun cancelled outcomes).filesCompleted = 0 →
      0 < (uploadRun cancelled outcomes).filesFailed →
      finalizeBatch (uploadRun cancelled outcomes)
        = (none, some ("All " ++ toString (uploadRun cancelled outcomes).filesFailed
            ++ " uploads failed")))
    ∧ ((finalizeBatch (uploadRun cancelled outcomes)).1 ≠ none
        ↔ 0 < (uploadRun cancelled outcomes).filesCompleted)
    ∧ ((uploadRun cancelled outcomes).filesCompleted = 0 →
      (uploadRun cancelled outcomes).filesFailed = 0 →
      finalizeBatch (uploadRun cancelled outcomes) = (none, none)) := by
  refine ⟨?_, ?_, ?_⟩
  · intro h0 hf
    unfold finalizeBatch
    rw [if_neg (by omega), if_pos hf]
  · unfold finalizeBatch
    by_cases hc : 0 < (uploadRun cancelled outcomes).filesCompleted
    · rw [if_pos hc]
      simpa using hc
    · rw [if_neg hc]
      constructor
      · intro h
        exfalso
        by_cases hf : 0 < (uploadRun cancelled outcomes).filesFailed
        · rw [if_pos hf] at h
          exact h rfl
        · rw [if_neg hf] at h
          exact h rfl
      · intro h
        exact absurd h hc
  · intro h0 hf
    unfold finalizeBatch
    rw [if_neg (by omega), if_neg (by omega)]

/-- Witness for C9 amended at a one-file all-failed batch. -/
theorem c9_zero_success_witness :
    finalizeBatch (uploadRun (fun _ => false) [FileResult.err "Network error"])
      = (none, some ("All "
          ++ toString (uploadRun (fun _ => false)
              [FileResult.err "Network error"]).filesFailed
          ++ " uploads failed")) :=
  (c9_zero_success (fun _ => false) [FileResult.err "Network error"]).1
    rfl (by decide)

/-! ## JavaScript Set model

useSearch keeps the "not me" exclusion set as a JS Set of image-id
strings.  A JS Set built from a list keeps the first occurrence of each
element, in insertion order; we model it as the deduplicated list. -/

/-- Insert the elements of a list one by one into an accumulator,
skipping elements already present (JS Set insertion). -/
def insSet : List String → List String → List String
  | acc, [] => acc
  | acc, x :: xs => insSet (if x ∈ acc then acc else acc ++ [x]) xs

/-- The list of elements of new Set(l), in iteration order. -/
def jsSetList (l : List String) : List String := insSet [] l

theorem insSet_mem : ∀ (l acc : List String) (y : String),
    y ∈ insSet acc l ↔ y ∈ acc ∨ y ∈ l := by
  intro l
  induction l with
  | nil => intro acc y; simp [insSet]
  | cons x xs ih =>
    intro acc y
    simp only [insSet]
    rw [ih]
    by_cases hx : x ∈ acc
    · rw [if_pos hx]
      constructor
      · rintro (h | h)
        · exact Or.inl h
        · exact Or.inr (List.mem_cons_of_mem _ h)
      · rintro (h | h)
        · exact Or.inl h
        · rcases List.mem_cons.mp h with h1 | h2
          · exact Or.inl (h1 ▸ hx)
          · exact Or.inr h2
    · rw [if_neg hx]
      simp only [List.mem_append, List.mem_singleton, List.mem_cons]
      tauto

theorem insSet_nodup : ∀ (l acc : List String), acc.Nodup → (insSet acc l).Nodup := by
  intro l
  induction l with
  | nil => intro acc h; simpa [insSet] using h
  | cons x xs ih =>
    intro acc h
    simp only [insSet]
    by_cases hx : x ∈ acc
    · rw [if_pos hx]
      exact ih acc h
    · rw [if_neg hx]
      refine ih _ ?_
      rw [List.nodup_append]
      exact ⟨h, List.nodup_singleton x,
        fun a ha hax => hx ((List.mem_singleton.mp hax) ▸ ha)⟩

theorem insSet_append : ∀ (l1 l2 acc : List String),
    insSet acc (l1 ++ l2) = insSet (insSet acc l1) l2 := by
  intro l1
  induction l1 with
  | nil => intro l2 acc; rfl
  | cons x xs ih =>
    intro l2 acc
    simp only [List.cons_append, insSet]
    exact ih l2 _

theorem insSet_of_nodup : ∀ (l acc : List String),
    (acc ++ l).Nodup → insSet acc l = acc ++ l := by
  intro l
  induction l with
  | nil => intro acc _; simp [insSet]
  | cons x xs ih =>
    intro acc h
    have hx : x ∉ acc := by
      rw [List.nodup_append] at h
      exact fun hc => h.2.2 hc (List.mem_cons_self _ _)
    simp only [insSet, if_neg hx]
    have hassoc : acc ++ [x] ++ xs = acc ++ x :: xs := by simp
    rw [ih (acc ++ [x]) (by rw [hassoc]; exact h), hassoc]

theorem jsSetList_nodup (l : List String) : (jsSetList l).Nodup :=
  insSet_nodup l [] List.nodup_nil

theorem jsSetList_mem (l : List String) (y : String) :
    y ∈ jsSetList l ↔ y ∈ l := by
  rw [jsSetList, insSet_mem]
  simp

theorem jsSetList_of_nodup (l : List String) (h : l.Nodup) : jsSetList l = l := by
  rw [jsSetList, insSet_of_nodup l [] (by simpa using h)]
  rfl

theorem insSet_eq_nil (l acc : List String) :
    insSet acc l = [] ↔ acc = [] ∧ l = [] := by
  constructor
  · intro h
    have hm : ∀ y, y ∈ acc ∨ y ∈ l → False := by
      intro y hy
      have hmem := (insSet_mem l acc y).mpr hy
      rw [h] at hmem
      simp at hmem
    constructor
    · cases acc with
      | nil => rfl
      | cons a t => exact absurd (Or.inl (List.mem_cons_self a t)) (hm a)
    · cases l with
      | nil => rfl
      | cons a t => exact absurd (Or.inr (List.mem_cons_self a t)) (hm a)
  · rintro ⟨h1, h2⟩
    subst h1
    subst h2
    rfl

/-! ## Exclusion list sent with a search (useSearch.search / searchFaces)

useSearch.search builds allExcluded = new Set([...hiddenIds,
...(excludedImageIds or [])]) and passes [...allExcluded] to searchFaces
when allExcluded.size > 0, undefined otherwise; searchFaces appends the
excluded_image_ids form field only when the received list is non-empty. -/

/-- The deduplicated union new Set([...hiddenIds, ...explicit]) built in
useSearch.search before sending. -/
def allExcluded (hiddenIds explicit : List String) : List String :=
  jsSetList (hiddenIds ++ explicit)

/-- The excludedImageIds argument passed to searchFaces: the spread union
when non-empty, undefined (none) otherwise. -/
def searchExclusionsArg (hiddenIds explicit : List String) : Option (List String) :=
  if 0 < (allExcluded hiddenIds explicit).length
  then some (allExcluded hiddenIds explicit) else none

/-- The excluded_image_ids field searchFaces attaches to the multipart
request: only present when the argument is a non-empty list. -/
def sentExcludedField : Option (List String) → Option (List String)
  | some l => if 0 < l.length then some l else none
  | none => none

/-- The exclusion list actually attached to one search request. -/
def sentExclusions (hiddenIds explicit : List String) : Option (List String) :=
  sentExcludedField (searchExclusionsArg hiddenIds explicit)

/-- C6: every search sends exactly the deduplicated union of the
persisted exclusion set and the caller's explicit exclusions, and the
field is attached precisely when that union is non-empty. -/
theorem c6_sent_exclusions (hiddenIds explicit : List String) :
    (sentExclusions hiddenIds explicit = none ↔ hiddenIds = [] ∧ explicit = [])
    ∧ ∀ l, sentExclusions hiddenIds explicit = some l →
        l.Nodup ∧ ∀ x, (x ∈ l ↔ x ∈ hiddenIds ∨ x ∈ explicit) := by
  by_cases hnil : allExcluded hiddenIds explicit = []
  · have harg : searchExclusionsArg hiddenIds explicit = none := by
      rw [searchExclusionsArg, if_neg]
      rw [hnil]
      simp
    constructor
    · rw [sentExclusions, harg]
      simp only [sentExcludedField, true_iff]
      have := (insSet_eq_nil (hiddenIds ++ explicit) []).mp hnil
      rcases List.append_eq_nil.mp this.2 with ⟨h1, h2⟩
      exact ⟨h1, h2⟩
    · intro l hl
      rw [sentExclusions, harg] at hl
      exact absurd hl (by simp [sentExcludedField])
  · have hlen : 0 < (allExcluded hiddenIds explicit).length :=
      List.length_pos.mpr hnil
    have harg : searchExclusionsArg hiddenIds explicit
        = some (allExcluded hiddenIds explicit) := by
      rw [searchExclusionsArg, if_pos hlen]
    constructor
    · rw [sentExclusions, harg]
      simp only [sentExcludedField, if_pos hlen]
      constructor
      · intro h
        exact absurd h (by simp)
      · rintro ⟨h1, h2⟩
        exact absurd (by rw [allExcluded, h1, h2]; rfl) hnil
    · intro l hl
      rw [sentExclusions, harg] at hl
      simp only [sentExcludedField, if_pos hlen, Option.some.injEq] at hl
      subst hl
      refine ⟨jsSetList_nodup _, fun x => ?_⟩
      rw [allExcluded, jsSetList_mem, List.mem_append]

/-- Witness for C6 at concrete overlapping lists. -/
theorem c6_sent_exclusions_witness :
    (["a", "b", "c"] : List String).Nodup
    ∧ ("b" ∈ (["a", "b", "c"] : List String)
        ↔ "b" ∈ (["a", "b"] : List String) ∨ "b" ∈ (["b", "c"] : List String)) := by
  have h := (c6_sent_exclusions ["a", "b"] ["b", "c"]).2 ["a", "b", "c"] (by decide)
  exact ⟨h.1, h.2 "b"⟩

/-! ## Durable exclusion-set storage (loadHiddenIds / saveHiddenIds)

saveHiddenIds writes JSON.stringify([...ids]) to localStorage under the
key HIDDEN_IDS_KEY ++ "_" ++ eventId; loadHiddenIds reads that key and
returns new Set(JSON.parse(stored)), or the empty set when the key is
absent, the stored string is empty (falsy), or parsing throws.

JSON.stringify and JSON.parse are platform builtins.  stringifyIds
produces exactly the stringify output for a string array (double-quoted
strings, the two-character escapes for quote, backslash, backspace, tab,
newline, form feed and carriage return, and lower-case u-escapes for the
other control characters, comma-separated inside brackets, no
whitespace).  stepParse/parseIds accept any JSON array of strings
(optional inter-token whitespace, slash escapes, u-escapes with
surrogate pairs combined into one code point) and return its elements;
jsonTextValid, defined below, decides the full JSON grammar, i.e.
whether JSON.parse succeeds at all; decodeStored combines the two into
the value the hook stores in its state. -/

/-- Lower-case hex digit, as emitted by JSON.stringify u-escapes. -/
def hexDig (n : Nat) : Char :=
  if n = 0 then '0' else if n = 1 then '1' else if n = 2 then '2'
  else if n = 3 then '3' else if n = 4 then '4' else if n = 5 then '5'
  else if n = 6 then '6' else if n = 7 then '7' else if n = 8 then '8'
  else if n = 9 then '9' else if n = 10 then 'a' else if n = 11 then 'b'
  else if n = 12 then 'c' else if n = 13 then 'd' else if n = 14 then 'e'
  else 'f'

/-- Value of a hex digit character (JSON.parse accepts both cases). -/
def hexVal (c : Char) : Option Nat :=
  if c = '0' then some 0 else if c = '1' then some 1 else if c = '2' then some 2
  else if c = '3' then some 3 else if c = '4' then some 4 else if c = '5' then some 5
  else if c = '6' then some 6 else if c = '7' then some 7 else if c = '8' then some 8
  else if c = '9' then some 9
  else if c = 'a' ∨ c = 'A' then some 10
  else if c = 'b' ∨ c = 'B' then some 11
  else if c = 'c' ∨ c = 'C' then some 12
  else if c = 'd' ∨ c = 'D' then some 13
  else if c = 'e' ∨ c = 'E' then some 14
  else if c = 'f' ∨ c = 'F' then some 15
  else none

/-- JSON.stringify escaping of one character inside a string literal. -/
def encodeChar (c : Char) : List Char :=
  if c = '"' then ['\\', '"']
  else if c = '\\' then ['\\', '\\']
  else if c = Char.ofNat 8 then ['\\', 'b']
  else if c = Char.ofNat 9 then ['\\', 't']
  else if c = Char.ofNat 10 then ['\\', 'n']
  else if c = Char.ofNat 12 then ['\\', 'f']
  else if c = Char.ofNat 13 then ['\\', 'r']
  else if c.toNat < 32 then
    ['\\', 'u', '0', '0', hexDig (c.toNat / 16), hexDig (c.toNat % 16)]
  else [c]

/-- JSON.stringify escaping of a whole string body. -/
def encodeStr : List Char → List Char
  | [] => []
  | c :: cs => encodeChar c ++ encodeStr cs

/-- A double-quoted JSON string literal for s. -/
def quoteChars (s : String) : List Char := '"' :: (encodeStr s.data ++ ['"'])

/-- The comma-separated items of JSON.stringify([...ids]). -/
def stringifyIdsChars : List String → List Char
  | [] => []
  | [s] => quoteChars s
  | s :: rest => quoteChars s ++ [','] ++ stringifyIdsChars rest

/-- JSON.stringify([...ids]): the serialized exclusion set. -/
def stringifyIds (ids : List String) : String :=
  ⟨'[' :: (stringifyIdsChars ids ++ [']'])⟩

/-- JSON inter-token whitespace. -/
def isJsonWs (c : Char) : Bool :=
  c = ' ' || c = Char.ofNat 9 || c = Char.ofNat 10 || c = Char.ofNat 13

/-- States of the JSON string-array parser.  escP1/escP2/escU2 handle
the second half of a surrogate-pair u-escape, which JSON.parse combines
into one code point. -/
inductive PState where
  | top
  | expectItem (first : Bool) (acc : List String)
  | inStr (acc : List String) (cur : List Char)
  | esc (acc : List String) (cur : List Char)
  | escU (acc : List String) (cur : List Char) (code : Nat) (count : Nat)
  | escP1 (acc : List String) (cur : List Char) (hi : Nat)
  | escP2 (acc : List String) (cur : List Char) (hi : Nat)
  | escU2 (acc : List String) (cur : List Char) (hi : Nat) (code : Nat) (count : Nat)
  | afterItem (acc : List String)
  | done (acc : List String)
  | fail

/-- One character of JSON.parse, restricted to arrays of strings. -/
def stepParse : PState → Char → PState
  | .top, c =>
    if c = '[' then .expectItem true [] else if isJsonWs c then .top else .fail
  | .expectItem first acc, c =>
    if c = '"' then .inStr acc []
    else if c = ']' then (if first then .done acc else .fail)
    else if isJsonWs c then .expectItem first acc
    else .fail
  | .inStr acc cur, c =>
    if c = '"' then .afterItem (String.mk cur.reverse :: acc)
    else if c = '\\' then .esc acc cur
    else if c.toNat < 32 then .fail
    else .inStr acc (c :: cur)
  | .esc acc cur, c =>
    if c = '"' then .inStr acc ('"' :: cur)
    else if c = '\\' then .inStr acc ('\\' :: cur)
    else if c = '/' then .inStr acc ('/' :: cur)
    else if c = 'b' then .inStr acc (Char.ofNat 8 :: cur)
    else if c = 'f' then .inStr acc (Char.ofNat 12 :: cur)
    else if c = 'n' then .inStr acc (Char.ofNat 10 :: cur)
    else if c = 'r' then .inStr acc (Char.ofNat 13 :: cur)
    else if c = 't' then .inStr acc (Char.ofNat 9 :: cur)
    else if c = 'u' then .escU acc cur 0 0
    else .fail
  | .escU acc cur code count, c =>
    match hexVal c with
    | none => .fail
    | some v =>
      if count = 3 then
        if code * 16 + v < 0xd800 ∨ 0xdfff < code * 16 + v
        then .inStr acc (Char.ofNat (code * 16 + v) :: cur)
        else if code * 16 + v < 0xdc00 then .escP1 acc cur (code * 16 + v)
        else .fail
      else .escU acc cur (code * 16 + v) (count + 1)
  | .escP1 acc cur hi, c => if c = '\\' then .escP2 acc cur hi else .fail
  | .escP2 acc cur hi, c => if c = 'u' then .escU2 acc cur hi 0 0 else .fail
  | .escU2 acc cur hi code count, c =>
    match hexVal c with
    | none => .fail
    | some v =>
      if count = 3 then
        if 0xdc00 ≤ code * 16 + v ∧ code * 16 + v ≤ 0xdfff
        then .inStr acc
          (Char.ofNat (0x10000 + (hi - 0xd800) * 0x400 + (code * 16 + v - 0xdc00)) :: cur)
        else .fail
      else .escU2 acc cur hi (code * 16 + v) (count + 1)
  | .afterItem acc, c =>
    if c = ',' then .expectItem false acc
    else if c = ']' then .done acc
    else if isJsonWs c then .afterItem acc
    else .fail
  | .done acc, c => if isJsonWs c then .done acc else .fail
  | .fail, _ => .fail

/-- Final answer of the parse: a value only when the whole input was one
complete string array. -/
def finishParse : PState → Option (List String)
  | .done acc => some acc.reverse
  | _ => none

/-- JSON.parse of the stored value, restricted to string arrays. -/
def parseIds (s : String) : Option (List String) :=
  finishParse (s.data.foldl stepParse .top)

/-! ### Round-trip: parseIds after stringifyIds is the identity -/

theorem foldl_encodeChar (c : Char) (acc : List String) (cur : List Char) :
    List.foldl stepParse (.inStr acc cur) (encodeChar c) = .inStr acc (c :: cur) := by
  by_cases h8 : c.toNat < 32
  · obtain ⟨t, htlt, rfl⟩ : ∃ t, t < 32 ∧ c = Char.ofNat t :=
      ⟨c.toNat, h8, (Char.ofNat_toNat c).symm⟩
    interval_cases t <;> rfl
  · by_cases h1 : c = '"'
    · subst h1; rfl
    by_cases h2 : c = '\\'
    · subst h2; rfl
    have h3 : c ≠ Char.ofNat 8 := fun h => h8 (by rw [h]; decide)
    have h4 : c ≠ Char.ofNat 9 := fun h => h8 (by rw [h]; decide)
    have h5 : c ≠ Char.ofNat 10 := fun h => h8 (by rw [h]; decide)
    have h6 : c ≠ Char.ofNat 12 := fun h => h8 (by rw [h]; decide)
    have h7 : c ≠ Char.ofNat 13 := fun h => h8 (by rw [h]; decide)
    have e : encodeChar c = [c] := by
      unfold encodeChar
      rw [if_neg h1, if_neg h2, if_neg h3, if_neg h4, if_neg h5, if_neg h6,
        if_neg h7, if_neg h8]
    rw [e]
    simp only [List.foldl]
    simp only [stepParse]
    rw [if_neg h1, if_neg h2, if_neg h8]

theorem foldl_encodeStr (cs : List Char) : ∀ (acc : List String) (cur : List Char),
    List.foldl stepParse (.inStr acc cur) (encodeStr cs)
      = .inStr acc (cs.reverse ++ cur) := by
  induction cs with
  | nil => intro acc cur; simp [encodeStr]
  | cons c cs ih =>
    intro acc cur
    simp only [encodeStr]
    rw [List.foldl_append, foldl_encodeChar, ih]
    congr 1
    simp

theorem foldl_quoteChars (s : String) (first : Bool) (acc : List String)
    (rest : List Char) :
    List.foldl stepParse (.expectItem first acc) (quoteChars s ++ rest)
      = List.foldl stepParse (.afterItem (s :: acc)) rest := by
  have hstep1 : stepParse (.expectItem first acc) '"' = .inStr acc [] := rfl
  simp only [quoteChars, List.cons_append, List.foldl, hstep1, List.append_assoc,
    List.singleton_append, List.append_eq, List.nil_append]
  rw [List.foldl_append, foldl_encodeStr]
  simp only [List.append_nil, List.foldl]
  have hstep2 : stepParse (.inStr acc s.data.reverse) '"'
      = .afterItem (String.mk s.data.reverse.reverse :: acc) := rfl
  rw [hstep2, List.reverse_reverse]

theorem foldl_stringifyItems : ∀ (ids : List String) (first : Bool) (acc : List String),
    ids ≠ [] →
    List.foldl stepParse (.expectItem first acc) (stringifyIdsChars ids ++ [']'])
      = .done (ids.reverse ++ acc) := by
  intro ids
  induction ids with
  | nil => intro first acc h; exact absurd rfl h
  | cons s rest ih =>
    intro first acc _
    cases rest with
    | nil =>
      show List.foldl stepParse (.expectItem first acc) (quoteChars s ++ [']'])
        = .done ([s].reverse ++ acc)
      rw [foldl_quoteChars]
      show stepParse (.afterItem (s :: acc)) ']' = .done ([s].reverse ++ acc)
      simp only [List.reverse_singleton, List.singleton_append]
      rfl
    | cons s2 rest2 =>
      show List.foldl stepParse (.expectItem first acc)
          ((quoteChars s ++ [','] ++ stringifyIdsChars (s2 :: rest2)) ++ [']'])
        = .done ((s :: s2 :: rest2).reverse ++ acc)
      rw [List.append_assoc, List.append_assoc, foldl_quoteChars]
      simp only [List.singleton_append, List.foldl, List.append_eq, List.nil_append]
      have hstep : stepParse (.afterItem (s :: acc)) ','
          = .expectItem false (s :: acc) := rfl
      rw [hstep, ih false (s :: acc) (by simp)]
      congr 1
      simp

theorem parseIds_stringifyIds (ids : List String) :
    parseIds (stringifyIds ids) = some ids := by
  cases ids with
  | nil => rfl
  | cons s rest =>
    show finishParse (List.foldl stepParse .top
        ('[' :: (stringifyIdsChars (s :: rest) ++ [']']))) = some (s :: rest)
    simp only [List.foldl]
    have hstep : stepParse .top '[' = .expectItem true [] := rfl
    rw [hstep, foldl_stringifyItems (s :: rest) true [] (by simp)]
    simp [finishParse]

theorem stringifyIds_ne_empty (ids : List String) : stringifyIds ids ≠ "" := by
  intro h
  have h2 : (stringifyIds ids).data = ("" : String).data := congrArg String.data h
  have h3 : (stringifyIds ids).data = '[' :: (stringifyIdsChars ids ++ [']']) := rfl
  have h4 : ("" : String).data = [] := rfl
  rw [h3, h4] at h2
  exact absurd h2 (by simp)

/-! ### JSON validity: deciding whether JSON.parse succeeds

jsonTextValid decides membership in the full JSON text grammar
(ECMA-404: a value is an object, array, string with the standard
escapes, number, true, false or null, with inter-token whitespace), so
it holds exactly when JSON.parse of the stored text succeeds rather
than throws. -/

/-- Decimal digit test. -/
def isDigit (c : Char) : Bool := '0' ≤ c && c ≤ '9'

/-- The two kinds of open JSON containers. -/
inductive JFrame where
  | arr
  | obj

/-- States of the JSON validity automaton: a pushdown machine whose
stack records the open containers.  num phases: 0 after a minus, 1
after a leading zero, 2 in integer digits, 3 after the decimal point, 4
in fraction digits, 5 after the exponent letter, 6 after the exponent
sign, 7 in exponent digits. -/
inductive JState where
  | val (first : Bool) (stk : List JFrame)
  | key (first : Bool) (stk : List JFrame)
  | colon (stk : List JFrame)
  | post (stk : List JFrame)
  | str (isKey : Bool) (stk : List JFrame)
  | sesc (isKey : Bool) (stk : List JFrame)
  | su (isKey : Bool) (stk : List JFrame) (count : Nat)
  | lit (rest : List Char) (stk : List JFrame)
  | num (phase : Nat) (stk : List JFrame)
  | bad

/-- After a complete value: a comma or the closing bracket of the
innermost container (a trailing comma demands another value or key). -/
def postStep (stk : List JFrame) (c : Char) : JState :=
  if isJsonWs c then .post stk
  else
    match stk with
    | [] => .bad
    | .arr :: rest =>
      if c = ',' then .val false (JFrame.arr :: rest)
      else if c = ']' then .post rest
      else .bad
    | .obj :: rest =>
      if c = ',' then .key false (JFrame.obj :: rest)
      else if c = '}' then .post rest
      else .bad

/-- Expecting the start of a value (']' closes an empty array). -/
def valStep (first : Bool) (stk : List JFrame) (c : Char) : JState :=
  if isJsonWs c then .val first stk
  else if c = '"' then .str false stk
  else if c = '[' then .val true (JFrame.arr :: stk)
  else if c = '{' then .key true (JFrame.obj :: stk)
  else if c = ']' then
    (match first, stk with
     | true, JFrame.arr :: rest => .post rest
     | _, _ => .bad)
  else if c = 't' then .lit ['r', 'u', 'e'] stk
  else if c = 'f' then .lit ['a', 'l', 's', 'e'] stk
  else if c = 'n' then .lit ['u', 'l', 'l'] stk
  else if c = '-' then .num 0 stk
  else if c = '0' then .num 1 stk
  else if isDigit c then .num 2 stk
  else .bad

/-- Expecting an object key ('}' closes an empty object). -/
def keyStep (first : Bool) (stk : List JFrame) (c : Char) : JState :=
  if isJsonWs c then .key first stk
  else if c = '"' then .str true stk
  else if c = '}' then
    (match first, stk with
     | true, JFrame.obj :: rest => .post rest
     | _, _ => .bad)
  else .bad

/-- The JSON number grammar; a non-number character in an accepting
phase ends the number and is handled as the character after a value. -/
def numStep (phase : Nat) (stk : List JFrame) (c : Char) : JState :=
  match phase with
  | 0 => if c = '0' then .num 1 stk else if isDigit c then .num 2 stk else .bad
  | 1 =>
    if c = '.' then .num 3 stk
    else if c = 'e' ∨ c = 'E' then .num 5 stk
    else if isDigit c then .bad
    else postStep stk c
  | 2 =>
    if isDigit c then .num 2 stk
    else if c = '.' then .num 3 stk
    else if c = 'e' ∨ c = 'E' then .num 5 stk
    else postStep stk c
  | 3 => if isDigit c then .num 4 stk else .bad
  | 4 =>
    if isDigit c then .num 4 stk
    else if c = 'e' ∨ c = 'E' then .num 5 stk
    else postStep stk c
  | 5 =>
    if c = '+' ∨ c = '-' then .num 6 stk
    else if isDigit c then .num 7 stk
    else .bad
  | 6 => if isDigit c then .num 7 stk else .bad
  | _ => if isDigit c then .num 7 stk else postStep stk c

/-- One character of the JSON validity automaton. -/
def stepJson : JState → Char → JState
  | .val first stk, c => valStep first stk c
  | .key first stk, c => keyStep first stk c
  | .colon stk, c =>
    if isJsonWs c then .colon stk else if c = ':' then .val false stk else .bad
  | .post stk, c => postStep stk c
  | .str isKey stk, c =>
    if c = '"' then (if isKey then .colon stk else .post stk)
    else if c = '\\' then .sesc isKey stk
    else if c.toNat < 32 then .bad
    else .str isKey stk
  | .sesc isKey stk, c =>
    if c = '"' ∨ c = '\\' ∨ c = '/' ∨ c = 'b' ∨ c = 'f' ∨ c = 'n' ∨ c = 'r' ∨ c = 't'
    then .str isKey stk
    else if c = 'u' then .su isKey stk 0
    else .bad
  | .su isKey stk count, c =>
    if (hexVal c).isSome then
      (if count = 3 then .str isKey stk else .su isKey stk (count + 1))
    else .bad
  | .lit rest stk, c =>
    (match rest with
     | [] => .bad
     | r :: rs => if c = r then (if rs.isEmpty then .post stk else .lit rs stk) else .bad)
  | .num phase stk, c => numStep phase stk c
  | .bad, _ => .bad

/-- Accepting final states: a complete value with no open containers (a
number may be ended by the end of the text). -/
def jsonAccept : JState → Bool
  | .post [] => true
  | .num phase [] => phase = 1 || phase = 2 || phase = 4 || phase = 7
  | _ => false

/-- Whether JSON.parse of the text succeeds. -/
def jsonTextValid (s : String) : Bool :=
  jsonAccept (s.data.foldl stepJson (.val false []))

/-- encodeChar never escapes the quote away: a character outside every
escape branch encodes as itself. -/
theorem encodeChar_plain (c : Char) (h8 : ¬ c.toNat < 32) (h1 : c ≠ '"')
    (h2 : c ≠ '\\') : encodeChar c = [c] := by
  have h3 : c ≠ Char.ofNat 8 := fun h => h8 (by rw [h]; decide)
  have h4 : c ≠ Char.ofNat 9 := fun h => h8 (by rw [h]; decide)
  have h5 : c ≠ Char.ofNat 10 := fun h => h8 (by rw [h]; decide)
  have h6 : c ≠ Char.ofNat 12 := fun h => h8 (by rw [h]; decide)
  have h7 : c ≠ Char.ofNat 13 := fun h => h8 (by rw [h]; decide)
  unfold encodeChar
  rw [if_neg h1, if_neg h2, if_neg h3, if_neg h4, if_neg h5, if_neg h6,
    if_neg h7, if_neg h8]

theorem stepJson_encodeChar (c : Char) (stk : List JFrame) :
    List.foldl stepJson (.str false stk) (encodeChar c) = .str false stk := by
  by_cases h8 : c.toNat < 32
  · obtain ⟨t, htlt, rfl⟩ : ∃ t, t < 32 ∧ c = Char.ofNat t :=
      ⟨c.toNat, h8, (Char.ofNat_toNat c).symm⟩
    interval_cases t <;> rfl
  · by_cases h1 : c = '"'
    · subst h1; rfl
    by_cases h2 : c = '\\'
    · subst h2; rfl
    rw [encodeChar_plain c h8 h1 h2]
    simp only [List.foldl]
    simp only [stepJson]
    rw [if_neg h1, if_neg h2, if_neg h8]

theorem stepJson_encodeStr (cs : List Char) : ∀ (stk : List JFrame),
    List.foldl stepJson (.str false stk) (encodeStr cs) = .str false stk := by
  induction cs with
  | nil => intro stk; rfl
  | cons c cs ih =>
    intro stk
    simp only [encodeStr]
    rw [List.foldl_append, stepJson_encodeChar, ih]

theorem stepJson_quoteChars (s : String) (first : Bool) (stk : List JFrame)
    (rest : List Char) :
    List.foldl stepJson (.val first stk) (quoteChars s ++ rest)
      = List.foldl stepJson (.post stk) rest := by
  have h1 : stepJson (.val first stk) '"' = .str false stk := rfl
  simp only [quoteChars, List.cons_append, List.foldl, h1, List.append_assoc,
    List.singleton_append, List.append_eq, List.nil_append]
  rw [List.foldl_append, stepJson_encodeStr]
  simp only [List.foldl]
  have h2 : stepJson (.str false stk) '"' = .post stk := rfl
  rw [h2]

theorem stepJson_items : ∀ (ids : List String) (first : Bool) (stk : List JFrame),
    ids ≠ [] →
    List.foldl stepJson (.val first (JFrame.arr :: stk))
        (stringifyIdsChars ids ++ [']'])
      = .post stk := by
  intro ids
  induction ids with
  | nil => intro first stk h; exact absurd rfl h
  | cons s rest ih =>
    intro first stk _
    cases rest with
    | nil =>
      show List.foldl stepJson (.val first (JFrame.arr :: stk))
          (quoteChars s ++ [']']) = .post stk
      rw [stepJson_quoteChars]
      rfl
    | cons s2 rest2 =>
      show List.foldl stepJson (.val first (JFrame.arr :: stk))
          ((quoteChars s ++ [','] ++ stringifyIdsChars (s2 :: rest2)) ++ [']'])
        = .post stk
      rw [List.append_assoc, List.append_assoc, stepJson_quoteChars]
      simp only [List.singleton_append, List.foldl, List.append_eq, List.nil_append]
      have hstep : stepJson (.post (JFrame.arr :: stk)) ','
          = .val false (JFrame.arr :: stk) := rfl
      rw [hstep, ih false stk (by simp)]

/-- The serialized exclusion set is valid JSON, so the code's JSON.parse
of it takes the success path. -/
theorem jsonTextValid_stringifyIds (ids : List String) :
    jsonTextValid (stringifyIds ids) = true := by
  cases ids with
  | nil => rfl
  | cons s rest =>
    show jsonAccept (List.foldl stepJson (.val false [])
        ('[' :: (stringifyIdsChars (s :: rest) ++ [']']))) = true
    simp only [List.foldl]
    have h1 : stepJson (.val false []) '[' = .val true [JFrame.arr] := rfl
    rw [h1, stepJson_items (s :: rest) true [] (by simp)]
    rfl

/-! ### The storage layer and the useSearch mutators -/

/-- Fixed key namespace for the exclusion set. -/
def HIDDEN_IDS_KEY : String := "camera_hidden_ids"

/-- localStorage key for one event's exclusion set. -/
def hiddenKey (eventId : String) : String := HIDDEN_IDS_KEY ++ "_" ++ eventId

/-- saveHiddenIds: localStorage.setItem(key, JSON.stringify([...ids])).
The surrounding try/catch ignores storage errors; the model is the
successful write. -/
def saveHiddenIds (eventId : String) (ids : List String)
    (store : String → Option String) : String → Option String :=
  fun k => if k = hiddenKey eventId then some (stringifyIds ids) else store k

/-- Decoding of a stored value found under the key: the empty string is
falsy and skipped; otherwise new Set(JSON.parse(stored)) inside
try/catch.  Case by case on the stored text:
invalid JSON (jsonTextValid false) makes JSON.parse throw, the catch
returns the empty set; a JSON array of strings yields the set of its
elements (parseIds, surrogate-pair escapes combined); a top-level JSON
string s yields the set of its code points as one-character strings
(new Set iterates the string; parsed by wrapping the text in brackets,
which succeeds with a singleton exactly when the text is one string
token); the remaining valid values — null, true, false, numbers and
objects — are not iterable (or, for null, treated as absent), so new Set
throws or is empty and the catch/empty path gives the empty set.  Outside
this lie only arrays with a non-string element, whose resulting set holds
members that are not strings (with IEEE-number and reference equality),
and texts denoting lone UTF-16 surrogates: both are unrepresentable in
the Set-of-identifier state and no claim concerns them; the model maps
them to the empty set. -/
def decodeStored (stored : String) : List String :=
  if stored = "" then []
  else if jsonTextValid stored then
    match parseIds stored with
    | some l => jsSetList l
    | none =>
      match parseIds ⟨'[' :: (stored.data ++ [']'])⟩ with
      | some [s] => jsSetList (s.data.map (fun c => String.mk [c]))
      | _ => []
  else []

/-- loadHiddenIds: read the event's key and decode it; an absent key
yields the empty set. -/
def loadHiddenIds (eventId : String) (store : String → Option String) : List String :=
  match store (hiddenKey eventId) with
  | some stored => decodeStored stored
  | none => []

/-- addHiddenId: setHiddenIds(prev => new Set([...prev, imageId])). -/
def addHiddenId (s : List String) (imageId : String) : List String :=
  jsSetList (s ++ [imageId])

theorem jsSetList_append (l1 l2 : List String) :
    jsSetList (l1 ++ l2) = insSet (jsSetList l1) l2 :=
  insSet_append l1 l2 []

/-- C7: addHiddenId is idempotent — applying it twice with the same
identifier yields the same in-memory set and the same persisted
serialized value as applying it once, and on a duplicate-free state
already containing the identifier it is a no-op. -/
theorem c7_addHiddenId_idempotent (s : List String) (x : String) :
    addHiddenId (addHiddenId s x) x = addHiddenId s x
    ∧ stringifyIds (addHiddenId (addHiddenId s x) x) = stringifyIds (addHiddenId s x)
    ∧ (x ∈ s → s.Nodup → addHiddenId s x = s) := by
  have hmem : x ∈ addHiddenId s x := by
    rw [addHiddenId, jsSetList_mem]
    simp
  have hnd : (addHiddenId s x).Nodup := jsSetList_nodup _
  have h1 : addHiddenId (addHiddenId s x) x = addHiddenId s x := by
    rw [addHiddenId, jsSetList_append, jsSetList_of_nodup _ hnd]
    show (if x ∈ addHiddenId s x then addHiddenId s x else addHiddenId s x ++ [x])
      = addHiddenId s x
    rw [if_pos hmem]
  refine ⟨h1, congrArg stringifyIds h1, fun hx hnodup => ?_⟩
  rw [addHiddenId, jsSetList_append, jsSetList_of_nodup _ hnodup]
  show (if x ∈ s then s else s ++ [x]) = s
  rw [if_pos hx]

/-- Witness for C7: adding an identifier already in the set is a no-op. -/
theorem c7_addHiddenId_idempotent_witness :
    addHiddenId ["a", "b"] "a" = ["a", "b"] :=
  (c7_addHiddenId_idempotent ["a", "b"] "a").2.2 (by decide) (by decide)

/-- C8: the exclusion set round-trips through durable storage — saving a
(duplicate-free) identifier set for an event and loading it back for the
same event returns exactly the saved set. -/
theorem c8_storage_roundtrip (store : String → Option String) (eventId : String)
    (ids : List String) (h : ids.Nodup) :
    loadHiddenIds eventId (saveHiddenIds eventId ids store) = ids := by
  have hkey : saveHiddenIds eventId ids store (hiddenKey eventId)
      = some (stringifyIds ids) := by
    show (if hiddenKey eventId = hiddenKey eventId
        then some (stringifyIds ids) else store (hiddenKey eventId))
      = some (stringifyIds ids)
    rw [if_pos rfl]
  unfold loadHiddenIds
  rw [hkey]
  show decodeStored (stringifyIds ids) = ids
  unfold decodeStored
  rw [if_neg (stringifyIds_ne_empty ids), if_pos (jsonTextValid_stringifyIds ids),
    parseIds_stringifyIds]
  exact jsSetList_of_nodup ids h

/-- Witness for C8 at a concrete store, event and set. -/
theorem c8_storage_roundtrip_witness :
    loadHiddenIds "e1" (saveHiddenIds "e1" ["a", "b"] (fun _ => none)) = ["a", "b"] :=
  c8_storage_roundtrip (fun _ => none) "e1" ["a", "b"] (by decide)

/-- C10: loading the persisted exclusion set never fails — when the key
is absent, and when the stored value is not valid JSON (so JSON.parse
throws and the catch runs), loadHiddenIds returns the empty set. -/
theorem c10_load_total (store : String → Option String) (eventId : String) :
    (store (hiddenKey eventId) = none → loadHiddenIds eventId store = [])
    ∧ (∀ v, store (hiddenKey eventId) = some v → jsonTextValid v = false →
        loadHiddenIds eventId store = []) := by
  constructor
  · intro h
    unfold loadHiddenIds
    rw [h]
  · intro v hv hp
    unfold loadHiddenIds
    rw [hv]
    show decodeStored v = []
    unfold decodeStored
    by_cases he : v = ""
    · rw [if_pos he]
    · have hcond : ¬ (jsonTextValid v = true) := by
        rw [hp]
        decide
      rw [if_neg he, if_neg hcond]

/-- Witness for C10: an absent key and a stored value that is not valid
JSON both load as the empty set. -/
theorem c10_load_total_witness :
    loadHiddenIds "e" (fun _ => none) = []
    ∧ loadHiddenIds "e" (fun _ => some "oops") = [] :=
  ⟨(c10_load_total (fun _ => none) "e").1 rfl,
    (c10_load_total (fun _ => some "oops") "e").2 "oops" rfl (by decide)⟩

/-! ## Search session state machine (useSearch.search)

useSearch keeps reactive state searching / error / results / selfieHash /
feedbackApplied.  One search() call performs, in order: the synchronous
start block (setSearching(true); setError(null); setResults(null)), then
awaits searchFaces and on resolution runs the success block
(setResults(data); setSelfieHash(data.selfie_hash);
setFeedbackApplied(data.feedback_applied)) or on rejection the error
block (setError(message)), then the finally block (setSearching(false)).
An execution with overlapping calls is a sequence of these synchronous
blocks; the handlers consult no call identity, so a settlement event
mutates the state identically whichever call it belongs to. -/

/-- Response body of POST /search (types.ts SearchResponse); results are
carried as their image identifiers, numeric ranking detail omitted. -/
structure SearchResponse where
  results : List String
  count : Nat
  selfie_hash : String
  feedback_applied : Bool
  deriving DecidableEq, Repr

/-- The reactive state of one useSearch session. -/
structure SearchState where
  searching : Bool
  error : Option String
  results : Option SearchResponse
  selfieHash : Option String
  feedbackApplied : Bool
  deriving DecidableEq, Repr

/-- Initial hook state (hiddenIds tracked separately). -/
def initSearchState : SearchState :=
  { searching := false, error := none, results := none, selfieHash := none,
    feedbackApplied := false }

/-- The synchronous mutation blocks a search() call contributes. -/
inductive SearchEvent where
  | start
  | settleOk (data : SearchResponse)
  | settleErr (message : String)
  deriving DecidableEq, Repr

/-- Effect of one block on the session state. -/
def stepSearch (st : SearchState) : SearchEvent → SearchState
  | .start => { st with searching := true, error := none, results := none }
  | .settleOk data =>
    { st with
      results := some data,
      selfieHash := some data.selfie_hash,
      feedbackApplied := data.feedback_applied,
      searching := false }
  | .settleErr message =>
    { st with error := some message, searching := false }

/-- The session state after an interleaved execution. -/
def runSearchEvents (events : List SearchEvent) : SearchState :=
  events.foldl stepSearch initSearchState

/-- C2 (failing interleaving): two overlapping search() calls where the
first call's response arrives after the second call's; the success
handler has no staleness guard, so the first call's late resolution
overwrites the second call's stored results and selfie hash. -/
theorem c2_stale_overwrite :
    (runSearchEvents [.start, .start,
        .settleOk ⟨["img2"], 1, "hash2", true⟩,
        .settleOk ⟨["img1"], 1, "hash1", false⟩]).results
      = some ⟨["img1"], 1, "hash1", false⟩
    ∧ (runSearchEvents [.start, .start,
        .settleOk ⟨["img2"], 1, "hash2", true⟩,
        .settleOk ⟨["img1"], 1, "hash1", false⟩]).selfieHash
      = some "hash1"
    ∧ (⟨["img1"], 1, "hash1", false⟩ : SearchResponse)
      ≠ ⟨["img2"], 1, "hash2", true⟩ := by
  exact ⟨rfl, rfl, by decide⟩

/-! ## Job status poller (useJobStatus)

The effect polls immediately (result unchecked), then starts an interval
whose handler polls and clears the interval when the fetched data is
non-null with status completed or failed.  fetch k is the settlement of
the k-th getJobStatus call: index 0 is the immediate call, index k >= 1
the k-th interval tick; none models a rejected fetch, which poll maps to
null.  Ticks are modelled as settling in order, each before the next
fires, with a fixed non-null job identifier. -/

/-- Job status values (types.ts ProcessingJob.status). -/
inductive JobStatus where
  | pending
  | processing
  | completed
  | failed
  deriving DecidableEq, Repr

/-- The stopping test of the interval handler:
status === completed or status === failed. -/
def isTerminal (s : JobStatus) : Bool :=
  s = JobStatus.completed || s = JobStatus.failed

/-- Whether interval tick m clears the interval: its fetched data is
non-null and terminal (a rejected fetch never stops the loop). -/
def tickStops (fetch : Nat → Option JobStatus) (m : Nat) : Bool :=
  match fetch m with
  | some s => isTerminal s
  | none => false

/-- Whether the n-th fetch is issued: the immediate fetch always is, and
interval tick n fires exactly when no earlier tick cleared the interval.
The immediate fetch's result is never consulted. -/
def pollerIssues (fetch : Nat → Option JobStatus) (n : Nat) : Bool :=
  decide (n = 0) || (List.range' 1 (n - 1)).all (fun m => !tickStops fetch m)

/-- Once an interval tick fetches a terminal status, no later fetch is
issued. -/
theorem poller_stop_after (fetch : Nat → Option JobStatus) (m n : Nat)
    (h1 : 1 ≤ m) (hstop : tickStops fetch m = true) (hmn : m < n) :
    pollerIssues fetch n = false := by
  unfold pollerIssues
  have hn0 : ¬(n = 0) := by omega
  simp only [hn0, decide_eq_true_eq, decide_eq_false_iff_not, not_false_iff,
    Bool.false_or, decide_False, Bool.false_or]
  rw [List.all_eq_false]
  refine ⟨m, ?_, ?_⟩
  · rw [List.mem_range'_1]
    omega
  · rw [hstop]
    simp

/-- The fetch sequence pending, processing, processing, completed (and
completed from then on). -/
def pollSeq : Nat → Option JobStatus :=
  fun n => some (if n = 0 then .pending else if n ≤ 2 then .processing else .completed)

/-- Counterexample to C5 as stated: when the immediate initial fetch (index
0) already returns a terminal status, the effect does not consult it, so
the first interval tick still issues one more fetch (which then stops the
interval: fetch 2 is never issued). -/
theorem c5_counterexample :
    tickStops (fun _ => some .completed) 0 = true
    ∧ pollerIssues (fun _ => some .completed) 1 = true
    ∧ pollerIssues (fun _ => some .completed) 2 = false := by
  exact ⟨rfl, rfl, rfl⟩

/-- C5 amended: a terminal status fetched by an interval tick stops the
poller for good — no fetch is issued at any later index — while a
terminal status on the immediate initial fetch does not prevent the
first interval fetch; for the status sequence pending, processing,
processing, completed, exactly the fetches of index 0..3 are issued. -/
theorem c5_poller_stops :
    (∀ (fetch : Nat → Option JobStatus) (m n : Nat), 1 ≤ m →
        tickStops fetch m = true → m < n → pollerIssues fetch n = false)
    ∧ (∀ n, pollerIssues pollSeq n = true ↔ n < 4) := by
  refine ⟨fun fetch m n h1 h2 h3 => poller_stop_after fetch m n h1 h2 h3, ?_⟩
  intro n
  by_cases h4 : n < 4
  · constructor
    · intro _
      exact h4
    · intro _
      interval_cases n <;> rfl
  · have hf := poller_stop_after pollSeq 3 n (by omega) rfl (by omega)
    rw [hf]
    simp
    omega

/-- Witness for C5 amended: with the concrete sequence, the terminal
status fetched at tick 3 means fetch 5 is never issued. -/
theorem c5_poller_stops_witness :
    pollerIssues pollSeq 5 = false :=
  c5_poller_stops.1 pollSeq 3 5 (by decide) (by decide) (by decide)

end WedFind
